import Mathlib

/-!
Shallow embedding of the materialized-vault accounting program
(`examples/svm/materialized_vault/src/{state.rs, processor.rs}`).

Machine integers are modelled as `Nat` with explicit clamping / `% 2 ^ 64`
where the Rust code saturates or casts.  Fallible entry points return a
`RunResult` that mirrors the Rust control flow: a `ProgramError` return, a
successful return, or a panic (from `copy_from_slice` on slices of unequal
length).
-/

set_option autoImplicit false

namespace MVault

/-- `u64::MAX`. -/
def U64_MAX : Nat := 2 ^ 64 - 1

/-- `u128::MAX`. -/
def U128_MAX : Nat := 2 ^ 128 - 1

/-- `u64::saturating_add`: clamps at `u64::MAX`. -/
def sat_add64 (a b : Nat) : Nat := min (a + b) U64_MAX

/-- `u64::saturating_sub`: on `Nat` operands below `2 ^ 64` this is
truncated subtraction, clamping at zero. -/
def sat_sub64 (a b : Nat) : Nat := a - b

/-- `u128::saturating_mul`: clamps at `u128::MAX`. -/
def sat_mul128 (a b : Nat) : Nat := min (a * b) U128_MAX

/-- `as u64` cast from `u128`: truncation mod `2 ^ 64`. -/
def cast_u64 (a : Nat) : Nat := a % 2 ^ 64

/-- The vault account data (`state.rs`, struct `Vault`): owner pubkey
(opaque), total shares outstanding, total tokens held. -/
structure Vault where
  owner : Nat
  shares_total : Nat
  token_total : Nat
deriving DecidableEq

/-- `Vault::new(owner)`: zero-balance vault for the given owner. -/
def Vault.new (owner : Nat) : Vault :=
  { owner := owner, shares_total := 0, token_total := 0 }

/-- Shares minted by a deposit (`processor.rs` lines 34-44):
1:1 when `token_total == 0`, otherwise
`(amount as u128).saturating_mul(shares_total).saturating_div(token_total) as u64`. -/
def depositShares (v : Vault) (token_amount : Nat) : Nat :=
  if v.token_total = 0 then
    token_amount
  else
    cast_u64 (sat_mul128 token_amount v.shares_total / v.token_total)

/-- State update of a deposit (`processor.rs` lines 46-50): both totals
read before either write, then saturating adds. -/
def depositVault (v : Vault) (token_amount : Nat) : Vault :=
  { v with
    token_total := sat_add64 v.token_total token_amount,
    shares_total := sat_add64 v.shares_total (depositShares v token_amount) }

/-- Tokens returned by a withdrawal (`processor.rs` lines 75-84):
0 when `shares_total == 0`, otherwise
`(amount as u128).saturating_mul(token_total).saturating_div(shares_total) as u64`. -/
def withdrawTokens (v : Vault) (shares_amount : Nat) : Nat :=
  if v.shares_total = 0 then
    0
  else
    cast_u64 (sat_mul128 shares_amount v.token_total / v.shares_total)

/-- State update of a withdrawal (`processor.rs` lines 86-90): saturating
subtractions of the returned tokens and the burned shares. -/
def withdrawVault (v : Vault) (shares_amount : Nat) : Vault :=
  { v with
    token_total := sat_sub64 v.token_total (withdrawTokens v shares_amount),
    shares_total := sat_sub64 v.shares_total shares_amount }

/-- State update of a reward (`processor.rs` lines 114-116): saturating add
to `token_total` only. -/
def rewardVault (v : Vault) (token_amount : Nat) : Vault :=
  { v with token_total := sat_add64 v.token_total token_amount }

/-- State update of a slash (`processor.rs` lines 143-144): saturating
subtraction from `token_total` only. -/
def slashVault (v : Vault) (token_amount : Nat) : Vault :=
  { v with token_total := sat_sub64 v.token_total token_amount }

/-- The two `ProgramError` variants the processor returns. -/
inductive ProgramError
  | InvalidInstructionData
  | NotEnoughAccountKeys
deriving DecidableEq

/-- Outcome of a processor entry point: the accounts array after the call,
tagged with how the call ended.  `panicked` models a Rust panic (e.g.
`copy_from_slice` with mismatched slice lengths); its payload is the
accounts array at the moment of the panic. -/
inductive RunResult
  | ok (accounts : List Vault)
  | err (e : ProgramError) (accounts : List Vault)
  | panicked (accounts : List Vault)
deriving DecidableEq

/-- `u64::from_le_bytes` on a little-endian byte list (bytes reduced
mod 256, as they are `u8` in the source). -/
def u64_from_le_bytes : List Nat → Nat
  | [] => 0
  | b :: rest => b % 256 + 256 * u64_from_le_bytes rest

/-- `process_deposit` (`processor.rs` lines 13-53).  Accounts are modelled
by their vault data; the instruction data is a byte list.  The length
check precedes the account lookup, as in the source. -/
def process_deposit (accounts : List Vault) (instruction_data : List Nat) :
    RunResult :=
  if 8 ≤ instruction_data.length then
    match accounts with
    | [] => .err .NotEnoughAccountKeys accounts
    | vault :: rest =>
      let token_amount := u64_from_le_bytes (instruction_data.take 8)
      .ok (depositVault vault token_amount :: rest)
  else
    .err .InvalidInstructionData accounts

/-- `process_withdraw` (`processor.rs` lines 61-93).  The account lookup
precedes the parse; `copy_from_slice` of `instruction_data[..8.min(len)]`
into an 8-byte array panics when fewer than 8 bytes are supplied. -/
def process_withdraw (accounts : List Vault) (instruction_data : List Nat) :
    RunResult :=
  match accounts with
  | [] => .err .NotEnoughAccountKeys accounts
  | vault :: rest =>
    if instruction_data.length < 8 then
      .panicked accounts
    else
      let shares_amount := u64_from_le_bytes (instruction_data.take 8)
      .ok (withdrawVault vault shares_amount :: rest)

/-- `process_reward` (`processor.rs` lines 101-119); same parse pattern as
`process_withdraw`. -/
def process_reward (accounts : List Vault) (instruction_data : List Nat) :
    RunResult :=
  match accounts with
  | [] => .err .NotEnoughAccountKeys accounts
  | vault :: rest =>
    if instruction_data.length < 8 then
      .panicked accounts
    else
      let token_amount := u64_from_le_bytes (instruction_data.take 8)
      .ok (rewardVault vault token_amount :: rest)

/-- `process_slash` (`processor.rs` lines 128-147); same parse pattern as
`process_withdraw`. -/
def process_slash (accounts : List Vault) (instruction_data : List Nat) :
    RunResult :=
  match accounts with
  | [] => .err .NotEnoughAccountKeys accounts
  | vault :: rest =>
    if instruction_data.length < 8 then
      .panicked accounts
    else
      let token_amount := u64_from_le_bytes (instruction_data.take 8)
      .ok (slashVault vault token_amount :: rest)

/-- The vault data of the first account in a `RunResult`, i.e. the
post-call state of the (only) vault the processor touches. -/
def RunResult.firstVault : RunResult → Option Vault
  | .ok accounts => accounts.head?
  | .err _ accounts => accounts.head?
  | .panicked accounts => accounts.head?

/-- The operations quantified over by the solvency invariant: deposit,
withdraw and reward, each carrying its u64 amount. -/
inductive Op
  | deposit (amount : Nat)
  | withdraw (amount : Nat)
  | reward (amount : Nat)
deriving DecidableEq

/-- Apply one operation to a vault. -/
def applyOp (v : Vault) : Op → Vault
  | .deposit a => depositVault v a
  | .withdraw a => withdrawVault v a
  | .reward a => rewardVault v a

/-- Apply a sequence of operations, left to right. -/
def applyOps (v : Vault) (ops : List Op) : Vault := ops.foldl applyOp v

/-- The amount carried by an operation. -/
def Op.amount : Op → Nat
  | .deposit a => a
  | .withdraw a => a
  | .reward a => a

/-- Solvency (from `certora.rs`): `shares_total <= token_total`. -/
def Solvent (v : Vault) : Prop := v.shares_total ≤ v.token_total

instance (v : Vault) : Decidable (Solvent v) := by
  unfold Solvent; infer_instance

/-- Well-formedness of the embedding: both counters fit in a `u64`. -/
def WF (v : Vault) : Prop := v.shares_total ≤ U64_MAX ∧ v.token_total ≤ U64_MAX

instance (v : Vault) : Decidable (WF v) := by
  unfold WF; infer_instance

/-- All amounts in a sequence fit in a `u64`. -/
def OpsWF (ops : List Op) : Prop := ∀ op ∈ ops, Op.amount op ≤ U64_MAX

/-! ### Arithmetic helper lemmas -/

theorem sat_mul128_eq (a b : Nat) (ha : a ≤ U64_MAX) (hb : b ≤ U64_MAX) :
    sat_mul128 a b = a * b := by
  have h1 : a * b ≤ U64_MAX * U64_MAX := Nat.mul_le_mul ha hb
  have h2 : U64_MAX * U64_MAX ≤ U128_MAX := by norm_num [U64_MAX, U128_MAX]
  exact min_eq_left (le_trans h1 h2)

theorem cast_u64_eq (a : Nat) (h : a ≤ U64_MAX) : cast_u64 a = a := by
  unfold cast_u64
  unfold U64_MAX at h
  omega

theorem cast_u64_le (a : Nat) : cast_u64 a ≤ a := Nat.mod_le a (2 ^ 64)

/-- In a solvent well-formed vault, a deposit never mints more shares than
the tokens put in. -/
theorem depositShares_le (v : Vault) (a : Nat) (hWF : WF v) (hs : Solvent v)
    (ha : a ≤ U64_MAX) : depositShares v a ≤ a := by
  unfold depositShares
  by_cases ht : v.token_total = 0
  · simp [ht]
  · simp only [ht, if_false]
    rw [sat_mul128_eq a v.shares_total ha hWF.1]
    have h1 : a * v.shares_total / v.token_total ≤ a := by
      have h2 : a * v.shares_total ≤ a * v.token_total := mul_le_mul_left' hs a
      calc a * v.shares_total / v.token_total
          ≤ a * v.token_total / v.token_total := Nat.div_le_div_right h2
        _ = a := Nat.mul_div_cancel a (Nat.pos_of_ne_zero ht)
    exact le_trans (cast_u64_le _) h1

/-- Deposits keep both totals within `u64`. -/
theorem depositVault_wf (v : Vault) (a : Nat) : WF (depositVault v a) := by
  unfold depositVault WF sat_add64
  exact ⟨min_le_right _ _, min_le_right _ _⟩

theorem withdrawVault_wf (v : Vault) (a : Nat) (hWF : WF v) :
    WF (withdrawVault v a) := by
  unfold withdrawVault WF sat_sub64
  exact ⟨le_trans (Nat.sub_le _ _) hWF.1, le_trans (Nat.sub_le _ _) hWF.2⟩

theorem rewardVault_wf (v : Vault) (a : Nat) (hWF : WF v) :
    WF (rewardVault v a) := by
  unfold rewardVault WF sat_add64
  exact ⟨hWF.1, min_le_right _ _⟩

/-- A deposit on a solvent well-formed vault leaves it solvent. -/
theorem depositVault_solvent (v : Vault) (a : Nat) (hWF : WF v) (hs : Solvent v)
    (ha : a ≤ U64_MAX) : Solvent (depositVault v a) := by
  have hm := depositShares_le v a hWF hs ha
  unfold depositVault Solvent sat_add64
  simp only
  unfold Solvent at hs
  omega

/-- The tokens returned by a withdrawal never exceed the solvency slack
plus the burned shares, when fewer shares are burned than exist. -/
theorem withdrawTokens_le (v : Vault) (a : Nat) (hWF : WF v) (hs : Solvent v)
    (ha : a ≤ U64_MAX) (hlt : a < v.shares_total) :
    withdrawTokens v a ≤ v.token_total - v.shares_total + a := by
  unfold withdrawTokens
  have hz : v.shares_total ≠ 0 := by omega
  simp only [hz, if_false]
  rw [sat_mul128_eq a v.token_total ha hWF.2]
  have hst : v.shares_total ≤ v.token_total := hs
  have hkey : a * v.token_total ≤
      v.shares_total * (v.token_total - v.shares_total + a) := by
    have e1 : a * v.token_total =
        a * v.shares_total + a * (v.token_total - v.shares_total) := by
      rw [← Nat.mul_add]
      congr 1
      omega
    have e2 : v.shares_total * (v.token_total - v.shares_total + a) =
        v.shares_total * (v.token_total - v.shares_total) +
          v.shares_total * a := by
      rw [Nat.mul_add]
    rw [e1, e2]
    have h3 : a * (v.token_total - v.shares_total) ≤
        v.shares_total * (v.token_total - v.shares_total) :=
      mul_le_mul_right' (le_of_lt hlt) _
    have h4 : a * v.shares_total = v.shares_total * a := Nat.mul_comm _ _
    omega
  have h5 : a * v.token_total / v.shares_total ≤
      v.token_total - v.shares_total + a := by
    calc a * v.token_total / v.shares_total
        ≤ v.shares_total * (v.token_total - v.shares_total + a) /
            v.shares_total := Nat.div_le_div_right hkey
      _ = v.token_total - v.shares_total + a :=
          Nat.mul_div_cancel_left _ (Nat.pos_of_ne_zero hz)
  exact le_trans (cast_u64_le _) h5

/-- A withdrawal from a solvent well-formed vault leaves it solvent. -/
theorem withdrawVault_solvent (v : Vault) (a : Nat) (hWF : WF v) (hs : Solvent v)
    (ha : a ≤ U64_MAX) : Solvent (withdrawVault v a) := by
  unfold withdrawVault Solvent sat_sub64
  simp only
  by_cases hcase : v.shares_total ≤ a
  · omega
  · have hr := withdrawTokens_le v a hWF hs ha (by omega)
    unfold Solvent at hs
    omega

/-- A reward on a solvent well-formed vault leaves it solvent. -/
theorem rewardVault_solvent (v : Vault) (a : Nat) (hWF : WF v) (hs : Solvent v) :
    Solvent (rewardVault v a) := by
  unfold rewardVault Solvent sat_add64
  simp only
  unfold Solvent at hs
  unfold WF at hWF
  omega

/-- One step: each of deposit, withdraw, reward preserves well-formedness
and solvency. -/
theorem applyOp_wf_solvent (v : Vault) (op : Op) (hWF : WF v) (hs : Solvent v)
    (ha : Op.amount op ≤ U64_MAX) : WF (applyOp v op) ∧ Solvent (applyOp v op) := by
  cases op with
  | deposit a =>
      exact ⟨depositVault_wf v a, depositVault_solvent v a hWF hs ha⟩
  | withdraw a =>
      exact ⟨withdrawVault_wf v a hWF, withdrawVault_solvent v a hWF hs ha⟩
  | reward a =>
      refine ⟨⟨?_, min_le_right _ _⟩, rewardVault_solvent v a hWF hs⟩
      exact hWF.1

/-- Folding any u64-amount sequence of deposit/withdraw/reward over a
solvent well-formed vault keeps it well-formed and solvent. -/
theorem applyOps_wf_solvent (ops : List Op) (v : Vault) (hWF : WF v)
    (hs : Solvent v) (hops : OpsWF ops) :
    WF (applyOps v ops) ∧ Solvent (applyOps v ops) := by
  induction ops generalizing v with
  | nil => exact ⟨hWF, hs⟩
  | cons op rest ih =>
      have hop : Op.amount op ≤ U64_MAX := hops op (List.mem_cons_self _ _)
      have hrest : OpsWF rest := fun o ho => hops o (List.mem_cons_of_mem _ ho)
      have hstep := applyOp_wf_solvent v op hWF hs hop
      have : applyOps v (op :: rest) = applyOps (applyOp v op) rest := rfl
      rw [this]
      exact ih (applyOp v op) hstep.1 hstep.2 hrest

instance (ops : List Op) : Decidable (OpsWF ops) := by
  unfold OpsWF; infer_instance

/-! ### Claim theorems -/

/-- Claim C1: for every sequence of deposit, withdraw and reward operations
with arbitrary u64 amounts, applied to a well-formed vault whose initial
state is solvent (`shares_total ≤ token_total`), the vault is solvent after
every operation of the sequence (i.e. after every prefix); no such sequence
ever produces `shares_total > token_total`. -/
theorem C1_solvency_invariant (v : Vault) (ops : List Op) (hWF : WF v)
    (hs : Solvent v) (hops : OpsWF ops) :
    ∀ p : List Op, p <+: ops → Solvent (applyOps v p) := by
  intro p hp
  have hpops : OpsWF p := fun o ho => hops o (hp.subset ho)
  exact (applyOps_wf_solvent p v hWF hs hpops).2

theorem C1_solvency_invariant_witness :
    Solvent (applyOps (Vault.new 0)
      [Op.deposit 100, Op.deposit 50, Op.reward 30, Op.withdraw 50]) :=
  C1_solvency_invariant (Vault.new 0)
    [Op.deposit 100, Op.deposit 50, Op.reward 30, Op.withdraw 50]
    (by decide) (by decide) (by decide)
    [Op.deposit 100, Op.deposit 50, Op.reward 30, Op.withdraw 50]
    (List.prefix_refl _)

/-- Claim C2: a deposit with pre-state `token_total ≠ 0` mints exactly
`(amount * shares_total / token_total) % 2 ^ 64` shares — the multiply and
divide are exact in the 128-bit intermediate and the result is truncated to
64 bits — and then sets `token_total` to the saturating sum
`token_total + amount` and `shares_total` to the saturating sum
`shares_total + shares_minted`, clamping at `u64::MAX`. -/
theorem C2_deposit_formula (v : Vault) (a : Nat) (hWF : WF v)
    (ht : v.token_total ≠ 0) (ha : a ≤ U64_MAX) :
    depositShares v a = a * v.shares_total / v.token_total % 2 ^ 64 ∧
    (depositVault v a).token_total = min (v.token_total + a) U64_MAX ∧
    (depositVault v a).shares_total =
      min (v.shares_total + a * v.shares_total / v.token_total % 2 ^ 64)
        U64_MAX ∧
    (depositVault v a).owner = v.owner := by
  have h1 : depositShares v a = a * v.shares_total / v.token_total % 2 ^ 64 := by
    unfold depositShares
    simp only [ht, if_false]
    rw [sat_mul128_eq a v.shares_total ha hWF.1]
    rfl
  refine ⟨h1, rfl, ?_, rfl⟩
  unfold depositVault sat_add64
  simp only
  rw [h1]

theorem C2_deposit_formula_witness :
    depositShares ⟨0, 100, 100⟩ 50 = 50 * 100 / 100 % 2 ^ 64 ∧
    (depositVault ⟨0, 100, 100⟩ 50).token_total = min (100 + 50) U64_MAX ∧
    (depositVault ⟨0, 100, 100⟩ 50).shares_total =
      min (100 + 50 * 100 / 100 % 2 ^ 64) U64_MAX ∧
    (depositVault ⟨0, 100, 100⟩ 50).owner = 0 :=
  C2_deposit_formula ⟨0, 100, 100⟩ 50 (by decide) (by decide) (by decide)

/-- Claim C3: a withdrawal of `amount` shares returns 0 tokens when
`shares_total = 0` and otherwise
`(amount * token_total / shares_total) % 2 ^ 64` (the same 128-bit
intermediate technique, exact multiply and divide, truncated to 64 bits);
it then sets `token_total` to the saturating difference
`token_total - tokens_returned` and `shares_total` to the saturating
difference `shares_total - amount`, clamping at zero and silently
truncating any shortfall instead of returning an error. -/
theorem C3_withdraw_formula (v : Vault) (a : Nat) (hWF : WF v)
    (ha : a ≤ U64_MAX) :
    withdrawTokens v a =
      (if v.shares_total = 0 then 0
       else a * v.token_total / v.shares_total % 2 ^ 64) ∧
    ((withdrawVault v a).token_total : ℤ) =
      max 0 ((v.token_total : ℤ) - (withdrawTokens v a : ℤ)) ∧
    ((withdrawVault v a).shares_total : ℤ) =
      max 0 ((v.shares_total : ℤ) - (a : ℤ)) ∧
    (withdrawVault v a).owner = v.owner := by
  refine ⟨?_, ?_, ?_, rfl⟩
  · unfold withdrawTokens
    by_cases hz : v.shares_total = 0
    · simp [hz]
    · simp only [hz, if_false]
      rw [sat_mul128_eq a v.token_total ha hWF.2]
      rfl
  · unfold withdrawVault sat_sub64
    simp only
    omega
  · unfold withdrawVault sat_sub64
    simp only
    omega

theorem C3_withdraw_formula_witness :
    withdrawTokens ⟨0, 150, 180⟩ 50 =
      (if (150 : Nat) = 0 then 0 else 50 * 180 / 150 % 2 ^ 64) ∧
    ((withdrawVault ⟨0, 150, 180⟩ 50).token_total : ℤ) =
      max 0 ((180 : ℤ) - (withdrawTokens ⟨0, 150, 180⟩ 50 : ℤ)) ∧
    ((withdrawVault ⟨0, 150, 180⟩ 50).shares_total : ℤ) =
      max 0 ((150 : ℤ) - (50 : ℤ)) ∧
    (withdrawVault ⟨0, 150, 180⟩ 50).owner = 0 :=
  C3_withdraw_formula ⟨0, 150, 180⟩ 50 (by decide) (by decide)

/-- Claim C4 counterexample: on the all-zero vault, `slash(1)` satisfies the
claim's hypotheses (`amount > 0` and `token_total < shares_total + amount`),
yet the post-state is not insolvent: `shares_total = token_total = 0`. -/
theorem C4_slash_insolvency_cex :
    0 < 1 ∧
    (Vault.mk 0 0 0).token_total < (Vault.mk 0 0 0).shares_total + 1 ∧
    ¬ (slashVault ⟨0, 0, 0⟩ 1).token_total <
        (slashVault ⟨0, 0, 0⟩ 1).shares_total := by
  decide

/-- Claim C4 (amended: additionally requires `shares_total > 0`; with
`shares_total = 0` the saturating subtraction clamps `token_total` at zero
and the post-state `0 ≤ 0` is not insolvent): every slash with `amount > 0`
on a vault with `shares_total > 0` and `token_total < shares_total + amount`
leaves the vault insolvent; the slash changes only `token_total`, by
saturating subtraction clamped at zero, and leaves `shares_total` (and the
owner) unchanged. -/
theorem C4_slash_insolvency (v : Vault) (a : Nat) (_ha : 0 < a)
    (hshares : 0 < v.shares_total)
    (hpre : v.token_total < v.shares_total + a) :
    (slashVault v a).token_total < (slashVault v a).shares_total ∧
    (slashVault v a).shares_total = v.shares_total ∧
    (slashVault v a).owner = v.owner ∧
    ((slashVault v a).token_total : ℤ) =
      max 0 ((v.token_total : ℤ) - (a : ℤ)) := by
  unfold slashVault sat_sub64
  refine ⟨?_, rfl, rfl, ?_⟩
  · simp only
    omega
  · simp only
    omega

theorem C4_slash_insolvency_witness :
    (slashVault ⟨0, 100, 120⟩ 200).token_total <
      (slashVault ⟨0, 100, 120⟩ 200).shares_total ∧
    (slashVault ⟨0, 100, 120⟩ 200).shares_total = 100 ∧
    (slashVault ⟨0, 100, 120⟩ 200).owner = 0 ∧
    ((slashVault ⟨0, 100, 120⟩ 200).token_total : ℤ) =
      max 0 ((120 : ℤ) - (200 : ℤ)) :=
  C4_slash_insolvency ⟨0, 100, 120⟩ 200 (by decide) (by decide) (by decide)

/-- Claim C5: a deposit into a vault with `token_total = 0` mints shares 1:1
with the deposited amount, and on the all-zero vault `deposit(n)` leaves
`shares_total = n` and `token_total = n`. -/
theorem C5_deposit_bootstrap (v : Vault) (o n : Nat) (ht : v.token_total = 0)
    (hn : n ≤ U64_MAX) :
    depositShares v n = n ∧
    depositVault ⟨o, 0, 0⟩ n = ⟨o, n, n⟩ := by
  constructor
  · unfold depositShares
    simp [ht]
  · have h1 : depositVault ⟨o, 0, 0⟩ n =
        ⟨o, min (0 + n) U64_MAX, min (0 + n) U64_MAX⟩ := rfl
    rw [h1]
    unfold U64_MAX at hn ⊢
    congr 1 <;> omega

theorem C5_deposit_bootstrap_witness :
    depositShares ⟨7, 0, 0⟩ 100 = 100 ∧
    depositVault ⟨7, 0, 0⟩ 100 = ⟨7, 100, 100⟩ :=
  C5_deposit_bootstrap ⟨7, 0, 0⟩ 7 100 (by decide) (by decide)

/-- Claim C6 counterexample: on the (insolvent) vault with
`shares_total = u64::MAX` and `token_total = 1`, depositing 1 token mints
`u64::MAX` shares, the shares total clamps at `u64::MAX`, and withdrawing
the minted shares returns 2 tokens — more than the 1 token deposited. -/
theorem C6_roundtrip_cex :
    ¬ withdrawTokens (depositVault ⟨0, U64_MAX, 1⟩ 1)
        (depositShares ⟨0, U64_MAX, 1⟩ 1) ≤ 1 := by
  decide

/-- Claim C6 (amended: restricted to solvent well-formed pre-states; on an
insolvent state the clamp of `shares_total` at `u64::MAX` during the
deposit can make the round trip return more than was deposited): depositing
`n` tokens into a solvent vault and immediately withdrawing the minted
shares returns at most `n` tokens. -/
theorem C6_deposit_withdraw_roundtrip (v : Vault) (n : Nat) (hWF : WF v)
    (hs : Solvent v) (hn : n ≤ U64_MAX) :
    withdrawTokens (depositVault v n) (depositShares v n) ≤ n := by
  have hm_le : depositShares v n ≤ n := depositShares_le v n hWF hs hn
  have hkey : depositShares v n * v.token_total ≤ n * v.shares_total := by
    by_cases ht : v.token_total = 0
    · have hs0 : v.shares_total = 0 := by
        have h := hs
        unfold Solvent at h
        omega
      rw [ht, hs0]
      simp
    · have h1 : depositShares v n = n * v.shares_total / v.token_total := by
        unfold depositShares
        simp only [ht, if_false]
        rw [sat_mul128_eq n v.shares_total hn hWF.1]
        refine cast_u64_eq _ ?_
        have h2 : n * v.shares_total ≤ n * v.token_total :=
          mul_le_mul_left' hs n
        calc n * v.shares_total / v.token_total
            ≤ n * v.token_total / v.token_total := Nat.div_le_div_right h2
          _ = n := Nat.mul_div_cancel n (Nat.pos_of_ne_zero ht)
          _ ≤ U64_MAX := hn
      rw [h1]
      exact Nat.div_mul_le_self _ _
  unfold withdrawTokens
  by_cases hz : (depositVault v n).shares_total = 0
  · simp [hz]
  · simp only [hz, if_false]
    have hm' : depositShares v n ≤ U64_MAX := le_trans hm_le hn
    have ht' : (depositVault v n).token_total ≤ U64_MAX := (depositVault_wf v n).2
    rw [sat_mul128_eq _ _ hm' ht']
    refine le_trans (cast_u64_le _) ?_
    have hmul : depositShares v n * (depositVault v n).token_total ≤
        n * (depositVault v n).shares_total := by
      have hshares_eq : (depositVault v n).shares_total =
          min (v.shares_total + depositShares v n) U64_MAX := rfl
      have htok_eq : (depositVault v n).token_total =
          min (v.token_total + n) U64_MAX := rfl
      by_cases hc : v.shares_total + depositShares v n ≤ U64_MAX
      · rw [hshares_eq, htok_eq, min_eq_left hc]
        calc depositShares v n * min (v.token_total + n) U64_MAX
            ≤ depositShares v n * (v.token_total + n) :=
              mul_le_mul_left' (min_le_left _ _) _
          _ = depositShares v n * v.token_total + depositShares v n * n :=
              Nat.mul_add _ _ _
          _ ≤ n * v.shares_total + n * depositShares v n := by
              refine Nat.add_le_add hkey ?_
              rw [Nat.mul_comm]
          _ = n * (v.shares_total + depositShares v n) := (Nat.mul_add _ _ _).symm
      · have hsM : min (v.shares_total + depositShares v n) U64_MAX = U64_MAX :=
          min_eq_right (by omega)
        rw [hshares_eq, htok_eq, hsM]
        calc depositShares v n * min (v.token_total + n) U64_MAX
            ≤ depositShares v n * U64_MAX := mul_le_mul_left' (min_le_right _ _) _
          _ ≤ n * U64_MAX := mul_le_mul_right' hm_le _
    calc depositShares v n * (depositVault v n).token_total /
          (depositVault v n).shares_total
        ≤ n * (depositVault v n).shares_total /
            (depositVault v n).shares_total := Nat.div_le_div_right hmul
      _ = n := Nat.mul_div_cancel n (Nat.pos_of_ne_zero hz)

theorem C6_deposit_withdraw_roundtrip_witness :
    withdrawTokens (depositVault ⟨0, 100, 100⟩ 50)
      (depositShares ⟨0, 100, 100⟩ 50) ≤ 50 :=
  C6_deposit_withdraw_roundtrip ⟨0, 100, 100⟩ 50 (by decide) (by decide)
    (by decide)

/-- Claim C7 counterexample: `reward(0)` on the vault with 5 shares and
7 tokens, and `reward(1)` on a vault whose `token_total` is already
`u64::MAX`, both leave the ratio `token_total / shares_total` unchanged,
not strictly increased. -/
theorem C7_reward_ratio_cex :
    ¬ (((rewardVault ⟨0, 5, 7⟩ 0).token_total : ℚ) /
         ((rewardVault ⟨0, 5, 7⟩ 0).shares_total : ℚ) >
       ((⟨0, 5, 7⟩ : Vault).token_total : ℚ) /
         ((⟨0, 5, 7⟩ : Vault).shares_total : ℚ)) ∧
    ¬ (((rewardVault ⟨0, 1, U64_MAX⟩ 1).token_total : ℚ) /
         ((rewardVault ⟨0, 1, U64_MAX⟩ 1).shares_total : ℚ) >
       ((⟨0, 1, U64_MAX⟩ : Vault).token_total : ℚ) /
         ((⟨0, 1, U64_MAX⟩ : Vault).shares_total : ℚ)) := by
  have h1 : rewardVault ⟨0, 5, 7⟩ 0 = ⟨0, 5, 7⟩ := by decide
  have h2 : rewardVault ⟨0, 1, U64_MAX⟩ 1 = ⟨0, 1, U64_MAX⟩ := by decide
  rw [h1, h2]
  exact ⟨lt_irrefl _, lt_irrefl _⟩

/-- Claim C7 (amended: requires `n > 0` and no saturation,
`token_total + n ≤ u64::MAX`; `reward(0)`, and a reward that clamps at
`u64::MAX`, leave the ratio unchanged): `reward(n)` leaves `shares_total`
unchanged, strictly increases `token_total / shares_total` when
`shares_total > 0`, and when `shares_total = 0` the post-state
`shares_total` is still 0, so the ratio stays infinite. -/
theorem C7_reward_ratio (v : Vault) (n : Nat) (hn : 0 < n)
    (hsat : v.token_total + n ≤ U64_MAX) :
    (rewardVault v n).shares_total = v.shares_total ∧
    (0 < v.shares_total →
      ((rewardVault v n).token_total : ℚ) /
          ((rewardVault v n).shares_total : ℚ) >
        (v.token_total : ℚ) / (v.shares_total : ℚ)) ∧
    (v.shares_total = 0 → (rewardVault v n).shares_total = 0) := by
  have htok : (rewardVault v n).token_total = v.token_total + n := by
    have h : (rewardVault v n).token_total = min (v.token_total + n) U64_MAX :=
      rfl
    rw [h]
    omega
  refine ⟨rfl, ?_, fun h => h⟩
  intro hpos
  have hshares : (rewardVault v n).shares_total = v.shares_total := rfl
  rw [htok, hshares, gt_iff_lt]
  have hcast : (0 : ℚ) < (v.shares_total : ℚ) := by exact_mod_cast hpos
  rw [div_lt_div_iff_of_pos_right hcast]
  exact_mod_cast Nat.lt_add_of_pos_right hn

theorem C7_reward_ratio_witness :
    ((rewardVault ⟨0, 150, 150⟩ 30).token_total : ℚ) /
        ((rewardVault ⟨0, 150, 150⟩ 30).shares_total : ℚ) >
      ((150 : Nat) : ℚ) / ((150 : Nat) : ℚ) :=
  (C7_reward_ratio ⟨0, 150, 150⟩ 30 (by decide) (by decide)).2.1 (by decide)

/-- Claim C8 (the code violates it): with a vault account present and
3-byte instruction data, `process_deposit` returns
`InvalidInstructionData` with the accounts untouched, but
`process_withdraw`, `process_reward` and `process_slash` panic inside
`copy_from_slice` (8-byte destination, shorter source) instead of
returning a structured error; with no account supplied all four return
`NotEnoughAccountKeys` without mutating anything. -/
theorem C8_short_input_behavior :
    process_deposit [⟨0, 5, 5⟩] [1, 2, 3] =
      .err .InvalidInstructionData [⟨0, 5, 5⟩] ∧
    process_withdraw [⟨0, 5, 5⟩] [1, 2, 3] = .panicked [⟨0, 5, 5⟩] ∧
    process_reward [⟨0, 5, 5⟩] [1, 2, 3] = .panicked [⟨0, 5, 5⟩] ∧
    process_slash [⟨0, 5, 5⟩] [1, 2, 3] = .panicked [⟨0, 5, 5⟩] ∧
    process_deposit [] [1, 2, 3, 4, 5, 6, 7, 8] =
      .err .NotEnoughAccountKeys [] ∧
    process_withdraw [] [] = .err .NotEnoughAccountKeys [] ∧
    process_reward [] [] = .err .NotEnoughAccountKeys [] ∧
    process_slash [] [] = .err .NotEnoughAccountKeys [] := by
  decide

/-- Claim C9: `deposit(n)` into a fully drained vault
(`token_total = 0`, `shares_total = S > 0`) takes the 1:1 bootstrap branch
and mints `n` shares, yielding `shares_total = min (S + n) u64::MAX` and
`token_total = n`; for every `n < u64::MAX` the post-state is still
insolvent, so such a deposit never restores solvency. -/
theorem C9_drained_deposit (o S n : Nat) (hS : 0 < S) (_hSle : S ≤ U64_MAX)
    (hn : n ≤ U64_MAX) :
    depositShares ⟨o, S, 0⟩ n = n ∧
    (depositVault ⟨o, S, 0⟩ n).shares_total = min (S + n) U64_MAX ∧
    (depositVault ⟨o, S, 0⟩ n).token_total = n ∧
    (n < U64_MAX →
      (depositVault ⟨o, S, 0⟩ n).token_total <
        (depositVault ⟨o, S, 0⟩ n).shares_total) := by
  have h1 : depositShares ⟨o, S, 0⟩ n = n := rfl
  have h2 : (depositVault ⟨o, S, 0⟩ n).shares_total = min (S + n) U64_MAX := rfl
  have h3 : (depositVault ⟨o, S, 0⟩ n).token_total = min (0 + n) U64_MAX := rfl
  refine ⟨h1, h2, ?_, ?_⟩
  · rw [h3]
    omega
  · intro hlt
    rw [h2, h3]
    omega

theorem C9_drained_deposit_witness :
    depositShares ⟨0, 100, 0⟩ 5 = 5 ∧
    (depositVault ⟨0, 100, 0⟩ 5).shares_total = min (100 + 5) U64_MAX ∧
    (depositVault ⟨0, 100, 0⟩ 5).token_total = 5 ∧
    (5 < U64_MAX →
      (depositVault ⟨0, 100, 0⟩ 5).token_total <
        (depositVault ⟨0, 100, 0⟩ 5).shares_total) :=
  C9_drained_deposit 0 100 5 (by decide) (by decide) (by decide)

/-- Claim C10: each of the four operations is deterministic and its
post-state vault depends only on the first account's vault data and the
first 8 bytes of the instruction data: two invocations on equal first
vaults whose instruction data agree on the first 8 bytes (both at least 8
bytes long) produce equal post-state vaults, regardless of extra
instruction bytes or extra accounts beyond the first. -/
theorem C10_input_dependence (v : Vault) (r1 r2 : List Vault)
    (d1 d2 : List Nat) (h8 : d1.take 8 = d2.take 8)
    (hl1 : 8 ≤ d1.length) (hl2 : 8 ≤ d2.length) :
    (process_deposit (v :: r1) d1).firstVault =
      (process_deposit (v :: r2) d2).firstVault ∧
    (process_withdraw (v :: r1) d1).firstVault =
      (process_withdraw (v :: r2) d2).firstVault ∧
    (process_reward (v :: r1) d1).firstVault =
      (process_reward (v :: r2) d2).firstVault ∧
    (process_slash (v :: r1) d1).firstVault =
      (process_slash (v :: r2) d2).firstVault := by
  have hn1 : ¬ d1.length < 8 := by omega
  have hn2 : ¬ d2.length < 8 := by omega
  refine ⟨?_, ?_, ?_, ?_⟩ <;>
    simp [process_deposit, process_withdraw, process_reward, process_slash,
      RunResult.firstVault, hl1, hl2, hn1, hn2, h8]

theorem C10_input_dependence_witness :
    (process_deposit [⟨0, 5, 5⟩] [1, 0, 0, 0, 0, 0, 0, 0]).firstVault =
      (process_deposit [⟨0, 5, 5⟩, ⟨1, 2, 3⟩]
        [1, 0, 0, 0, 0, 0, 0, 0, 9]).firstVault ∧
    (process_withdraw [⟨0, 5, 5⟩] [1, 0, 0, 0, 0, 0, 0, 0]).firstVault =
      (process_withdraw [⟨0, 5, 5⟩, ⟨1, 2, 3⟩]
        [1, 0, 0, 0, 0, 0, 0, 0, 9]).firstVault ∧
    (process_reward [⟨0, 5, 5⟩] [1, 0, 0, 0, 0, 0, 0, 0]).firstVault =
      (process_reward [⟨0, 5, 5⟩, ⟨1, 2, 3⟩]
        [1, 0, 0, 0, 0, 0, 0, 0, 9]).firstVault ∧
    (process_slash [⟨0, 5, 5⟩] [1, 0, 0, 0, 0, 0, 0, 0]).firstVault =
      (process_slash [⟨0, 5, 5⟩, ⟨1, 2, 3⟩]
        [1, 0, 0, 0, 0, 0, 0, 0, 9]).firstVault :=
  C10_input_dependence ⟨0, 5, 5⟩ [] [⟨1, 2, 3⟩]
    [1, 0, 0, 0, 0, 0, 0, 0] [1, 0, 0, 0, 0, 0, 0, 0, 9]
    (by decide) (by decide) (by decide)

end MVault
